import Mathlib

/-!
Verification of the `core-js-101` 05-objects-tasks module.

This file gives a shallow embedding of the two implementations found in the
repository (`src/src/05-objects-tasks.js` and `src/unnamed/part_000`) and
proves or refutes the specification claims about them.

Embedding conventions:
* A JavaScript `Map` is modelled as an insertion-ordered association list;
  `Map.set` on an existing key replaces the value in place (keeping the
  original position), otherwise it appends at the end, exactly as in
  ECMAScript.  Pushing onto an array stored in the map mutates the value at
  its position, which for an association list is an in-place value update.
* Thrown JS errors are modelled by the `JsError` type; a method on a builder
  is a function `FragMap -> FragMap × Option JsError` returning the object
  state after the call together with the error, if one was thrown (the state
  component is the state at throw time, since a throw aborts the method).
* JS numbers are modelled by `Int`: every number appearing in the claims is
  integral and the claims under study do not depend on float rounding.
-/

/-- Fragment kinds, mirroring the `ELEMENTS` constant object of both source
files (`TAG`, `ID`, `CLASS`, `ATTRIBUTE`, `PSEUDO-CLASS`, `PSEUDO-ELEMENT`). -/
inductive ElementKind where
  | TAG
  | ID
  | CLASS
  | ATTRIBUTE
  | PSEUDO_CLASS
  | PSEUDO_ELEMENT
deriving DecidableEq, Repr

/-- The fixed kind order `elementsPathOrder` set up in both constructors:
`[TAG, ID, CLASS, ATTRIBUTE, PSEUDO_CLASS, PSEUDO_ELEMENT]`. -/
def elementsPathOrder : List ElementKind :=
  [.TAG, .ID, .CLASS, .ATTRIBUTE, .PSEUDO_CLASS, .PSEUDO_ELEMENT]

/-- Position of a kind in `elementsPathOrder` (what
`this.elementsPathOrder.indexOf(element)` computes in `checkElementOrder`). -/
def kindIndex : ElementKind → Nat
  | .TAG => 0
  | .ID => 1
  | .CLASS => 2
  | .ATTRIBUTE => 3
  | .PSEUDO_CLASS => 4
  | .PSEUDO_ELEMENT => 5

/-- A value stored in the builder's map: a plain string (for `TAG`, `ID`,
`PSEUDO_ELEMENT`) or an array of strings (for the repeatable kinds); the
source distinguishes the two cases with `Array.isArray`. -/
inductive MapValue where
  | str (s : String)
  | arr (l : List String)
deriving DecidableEq, Repr

/-- The builder's fragment map `this.map`: a JS `Map` from kind to value,
modelled as an insertion-ordered association list. -/
abbrev FragMap := List (ElementKind × MapValue)

/-- `Map.prototype.has`. -/
def mapHas (k : ElementKind) (m : FragMap) : Bool :=
  m.any (fun p => p.1 == k)

/-- `Map.prototype.get`. -/
def mapGet (k : ElementKind) : FragMap → Option MapValue
  | [] => none
  | p :: t => if p.1 == k then some p.2 else mapGet k t

/-- `Map.prototype.set`: replace in place if the key is present (ECMAScript
keeps the original insertion position), otherwise append at the end.  An
in-place `Array.prototype.push` on a stored array is also expressed through
this function, as an in-place value replacement. -/
def mapSet (k : ElementKind) (v : MapValue) (m : FragMap) : FragMap :=
  if mapHas k m then m.map (fun p => if p.1 == k then (k, v) else p)
  else m ++ [(k, v)]

/-- How one stored value is rendered by `stringify`:
`Array.isArray(value) ? value.join('') : value`. -/
def valueText : MapValue → String
  | .str s => s
  | .arr l => String.join l

/-- The map-rendering loop of `stringify` (both sources):
`result += Array.isArray(value) ? value.join('') : value`, iterating the map
in insertion order, starting from `''`. -/
def stringifyMap (m : FragMap) : String :=
  m.foldl (fun result p => result ++ valueText p.2) ""

/-- JS errors thrown by the module.  `dupErr` carries the message
"Element, id and pseudo-element should not occur more then one time inside
the selector"; `orderErr` carries "Selector parts should be arranged in the
following order: element, id, class, attribute, pseudo-class, pseudo-element";
`typeErr` is a `TypeError` from calling `.push` on a non-array (unreachable
through the public API). -/
inductive JsError where
  | dupErr
  | orderErr
  | typeErr
deriving DecidableEq, Repr

/-- `checkElementExist`: the guard that throws the duplicate error when a
`TAG` fragment is already present (returns `true` when the source throws). -/
def checkElementExist (m : FragMap) : Bool :=
  mapHas .TAG m

/-- `checkIdExist`. -/
def checkIdExist (m : FragMap) : Bool :=
  mapHas .ID m

/-- `checkPseudoElementExist`. -/
def checkPseudoElementExist (m : FragMap) : Bool :=
  mapHas .PSEUDO_ELEMENT m

/-- `checkElementOrder(element)`: scan the kinds strictly after `element` in
`elementsPathOrder` (the loop from `indexOf(element) + 1`) and report whether
any of them is present in the map (in which case the source throws the order
error). -/
def checkElementOrder (k : ElementKind) (m : FragMap) : Bool :=
  (elementsPathOrder.drop (List.indexOf k elementsPathOrder + 1)).any
    (fun k2 => mapHas k2 m)

/-- `setArrayValueToMap(key, value)`: `const elements = this.map.get(key)`;
if `elements` is truthy, `elements.push(value)` (an in-place update of the
stored array — a `TypeError` if the stored value is a truthy non-array);
otherwise `this.map.set(key, [value])`.  A stored empty string is falsy, so
it is overwritten in place by `[value]`. -/
def setArrayValueToMap (k : ElementKind) (v : String) (m : FragMap) :
    FragMap × Option JsError :=
  match mapGet k m with
  | some (.arr l) => (mapSet k (.arr (l ++ [v])) m, none)
  | some (.str s) =>
      if s = "" then (mapSet k (.arr [v]) m, none) else (m, some .typeErr)
  | none => (mapSet k (.arr [v]) m, none)

/-- `element(value)`: duplicate check, then order check, then
`this.map.set(TAG, value)` (the tag text is stored verbatim). -/
def SelectorBuilder.element (v : String) (m : FragMap) :
    FragMap × Option JsError :=
  if checkElementExist m then (m, some .dupErr)
  else if checkElementOrder .TAG m then (m, some .orderErr)
  else (mapSet .TAG (.str v) m, none)

/-- `id(value)`: duplicate check, order check, then store `'#' + value`. -/
def SelectorBuilder.id (v : String) (m : FragMap) :
    FragMap × Option JsError :=
  if checkIdExist m then (m, some .dupErr)
  else if checkElementOrder .ID m then (m, some .orderErr)
  else (mapSet .ID (.str ("#" ++ v)) m, none)

/-- `class(value)` (named `cls` here because `class` is a Lean keyword):
order check, then append `'.' + value` to the `CLASS` array. -/
def SelectorBuilder.cls (v : String) (m : FragMap) :
    FragMap × Option JsError :=
  if checkElementOrder .CLASS m then (m, some .orderErr)
  else setArrayValueToMap .CLASS ("." ++ v) m

/-- `attr(value)`: order check, then append `'[' + value + ']'`. -/
def SelectorBuilder.attr (v : String) (m : FragMap) :
    FragMap × Option JsError :=
  if checkElementOrder .ATTRIBUTE m then (m, some .orderErr)
  else setArrayValueToMap .ATTRIBUTE ("[" ++ v ++ "]") m

/-- `pseudoClass(value)`: order check, then append `':' + value`. -/
def SelectorBuilder.pseudoClass (v : String) (m : FragMap) :
    FragMap × Option JsError :=
  if checkElementOrder .PSEUDO_CLASS m then (m, some .orderErr)
  else setArrayValueToMap .PSEUDO_CLASS (":" ++ v) m

/-- `pseudoElement(value)`: duplicate check, order check, then store
`'::' + value`. -/
def SelectorBuilder.pseudoElement (v : String) (m : FragMap) :
    FragMap × Option JsError :=
  if checkPseudoElementExist m then (m, some .dupErr)
  else if checkElementOrder .PSEUDO_ELEMENT m then (m, some .orderErr)
  else (mapSet .PSEUDO_ELEMENT (.str ("::" ++ v)) m, none)

/-- One fragment-inserting call on a simple selector builder, with the value
passed by the client. -/
inductive FragOp where
  | element (v : String)
  | id (v : String)
  | cls (v : String)
  | attr (v : String)
  | pseudoClass (v : String)
  | pseudoElement (v : String)
deriving DecidableEq, Repr

/-- The kind a fragment operation inserts. -/
def kindOf : FragOp → ElementKind
  | .element _ => .TAG
  | .id _ => .ID
  | .cls _ => .CLASS
  | .attr _ => .ATTRIBUTE
  | .pseudoClass _ => .PSEUDO_CLASS
  | .pseudoElement _ => .PSEUDO_ELEMENT

/-- The sigil-prefixed text a fragment operation stores in the map. -/
def fragText : FragOp → String
  | .element v => v
  | .id v => "#" ++ v
  | .cls v => "." ++ v
  | .attr v => "[" ++ v ++ "]"
  | .pseudoClass v => ":" ++ v
  | .pseudoElement v => "::" ++ v

/-- Kinds allowing at most one fragment (those with a duplicate check). -/
def isSingletonKind : ElementKind → Bool
  | .TAG => true
  | .ID => true
  | .PSEUDO_ELEMENT => true
  | _ => false

/-- Dispatch a fragment operation to the corresponding builder method. -/
def applyOpSt : FragOp → FragMap → FragMap × Option JsError
  | .element v, m => SelectorBuilder.element v m
  | .id v, m => SelectorBuilder.id v m
  | .cls v, m => SelectorBuilder.cls v m
  | .attr v, m => SelectorBuilder.attr v m
  | .pseudoClass v, m => SelectorBuilder.pseudoClass v m
  | .pseudoElement v, m => SelectorBuilder.pseudoElement v m

/-- A fragment operation as a fallible state transition: an error aborts the
call chain, a success yields the new fragment map. -/
def applyOp (o : FragOp) (m : FragMap) : Except JsError FragMap :=
  match applyOpSt o m with
  | (m2, none) => .ok m2
  | (_, some e) => .error e

/-- Run a chain of fragment insertions on one fresh simple selector builder
(`new SelectorBuilder()` starts with an empty map). -/
def runOps (ops : List FragOp) : Except JsError FragMap :=
  ops.foldlM (fun m o => applyOp o m) []

/-- A `SelectorBuilder` object of `src/src/05-objects-tasks.js` as reachable
through the facade: either a simple selector (its fragment map, with
`combineSelector` false and the combine fields unset) or a node on which
`combine(selector1, combinator, selector2)` was called (its fragment map —
empty for facade-built nodes — plus the `combineSelector` flag and the stored
children).  Children are modelled structurally, matching call trees in which
each intermediate selector value is used in one place. -/
inductive NodeA where
  | simple (map : FragMap)
  | combined (map : FragMap) (combineSelector : Bool)
      (selector1 : NodeA) (combinator : String) (selector2 : NodeA)
deriving DecidableEq, Repr

/-- `stringify()` of `src/src/05-objects-tasks.js`.  When `combineSelector`
is set, the method first clears it (`this.combineSelector = false`), then
returns `` `${selector1.stringify()} ${combinator} ${selector2.stringify()}` ``
(the recursive calls may themselves mutate the children); otherwise it renders
the fragment map.  The result is the returned string together with the node
state after the call. -/
def stringifyA : NodeA → String × NodeA
  | .simple m => (stringifyMap m, .simple m)
  | .combined m false s1 c s2 => (stringifyMap m, .combined m false s1 c s2)
  | .combined m true s1 c s2 =>
      ((stringifyA s1).1 ++ " " ++ c ++ " " ++ (stringifyA s2).1,
       .combined m false (stringifyA s1).2 c (stringifyA s2).2)

/-- The facade's `combine(selector1, combinator, selector2)` in
`src/src/05-objects-tasks.js`: `new SelectorBuilder()` (empty map) followed by
`combine`, which stores the three arguments and sets `combineSelector`. -/
def facadeCombineA (s1 : NodeA) (c : String) (s2 : NodeA) : NodeA :=
  .combined [] true s1 c s2

/-- A selector node of `src/unnamed/part_000`: a `SelectorBuilder` (fragment
map) or a `CombineSelectorBuilder` holding the two children and the
combinator. -/
inductive NodeB where
  | simple (map : FragMap)
  | combined (selector1 : NodeB) (combinator : String) (selector2 : NodeB)
deriving DecidableEq, Repr

/-- `stringify()` of `src/unnamed/part_000`: a `CombineSelectorBuilder`
renders `` `${selector1.stringify()} ${combinator} ${selector2.stringify()}` ``
and a `SelectorBuilder` renders its fragment map; neither method assigns to
any field, so the translation is a pure function. -/
def stringifyB : NodeB → String
  | .simple m => stringifyMap m
  | .combined s1 c s2 => stringifyB s1 ++ " " ++ c ++ " " ++ stringifyB s2

/-- A client-side construction of a selector through the facade
`cssSelectorBuilder`: a chain of fragment calls starting from a fresh simple
builder, or `combine` of two constructions.  (Fragment methods return `this`,
so a chain acts on one builder.) -/
inductive BuildExpr where
  | simple (ops : List FragOp)
  | combine (l : BuildExpr) (c : String) (r : BuildExpr)

/-- Evaluate a facade construction against `src/src/05-objects-tasks.js`;
an error thrown anywhere aborts the construction. -/
def buildA : BuildExpr → Except JsError NodeA
  | .simple ops => (runOps ops).map NodeA.simple
  | .combine l c r => do
      let a ← buildA l
      let b ← buildA r
      pure (facadeCombineA a c b)

/-- Evaluate a facade construction against `src/unnamed/part_000`. -/
def buildB : BuildExpr → Except JsError NodeB
  | .simple ops => (runOps ops).map NodeB.simple
  | .combine l c r => do
      let a ← buildB l
      let b ← buildB r
      pure (NodeB.combined a c b)

/-- Reinterpret a `part_000` node as the `src/src` node the same facade calls
produce: a combined node there starts with an empty map and a set
`combineSelector` flag. -/
def nodeAOfB : NodeB → NodeA
  | .simple m => .simple m
  | .combined s1 c s2 => .combined [] true (nodeAOfB s1) c (nodeAOfB s2)

/-- A `Rectangle` value: the two own fields of the returned object literal
plus the environment captured by the `getArea` arrow function, which closes
over the constructor parameters `recWidth`/`recHeight`, not over the fields. -/
structure RectangleObj where
  width : Int
  height : Int
  capturedWidth : Int
  capturedHeight : Int
deriving DecidableEq, Repr

/-- `Rectangle(recWidth, recHeight)` returns
`{ width: recWidth, height: recHeight, getArea: () => recWidth * recHeight }`;
at construction the fields and the captured parameters coincide. -/
def Rectangle (recWidth recHeight : Int) : RectangleObj :=
  { width := recWidth, height := recHeight,
    capturedWidth := recWidth, capturedHeight := recHeight }

/-- `getArea()`: multiplies the captured constructor parameters on every
call (no caching — and no reading of the object fields). -/
def RectangleObj.getArea (r : RectangleObj) : Int :=
  r.capturedWidth * r.capturedHeight

/-- An external field mutation `r.width = w` (it cannot touch the closure
environment). -/
def setWidth (r : RectangleObj) (w : Int) : RectangleObj :=
  { r with width := w }

/-- An external field mutation `r.height = h`. -/
def setHeight (r : RectangleObj) (h : Int) : RectangleObj :=
  { r with height := h }

/-- Numeric value of a digit string (`"123"`, given as its character list). -/
def digitsToNat (cs : List Char) : Nat :=
  cs.foldl (fun n c => n * 10 + (c.toNat - 48)) 0

/-- Model of the ECMAScript array-index test for a property key: a key is an
array index when it is the canonical decimal numeral of an integer `n` with
`0 ≤ n < 2^32 - 1` (digits only, no leading zero except `"0"` itself).
Array-index keys are the ones object property order places first, in
ascending numeric order. -/
def isArrayIndexKey (s : String) : Option Nat :=
  let cs := s.data
  if cs ≠ [] ∧ cs.all Char.isDigit = true ∧ (cs = ['0'] ∨ cs.head? ≠ some '0') ∧
      digitsToNat cs < 4294967295
  then some (digitsToNat cs) else none

/-- Insert an array-index-keyed property into the leading numeric block of a
property list, keeping that block in ascending numeric order (the key is not
yet present). -/
def insertNumericKey (k : String) (n : Nat) (v : V) :
    List (String × V) → List (String × V)
  | [] => [(k, v)]
  | (k2, v2) :: t =>
      match isArrayIndexKey k2 with
      | some n2 =>
          if n < n2 then (k, v) :: (k2, v2) :: t
          else (k2, v2) :: insertNumericKey k n v t
      | none => (k, v) :: (k2, v2) :: t

/-- Model of `CreateDataProperty` on a plain object, tracking ECMAScript own
property order: an existing key keeps its position and gets the new value; a
new array-index key joins the leading numeric block in ascending order; any
other new key is appended after all existing properties. -/
def createDataProperty (m : List (String × V)) (k : String) (v : V) :
    List (String × V) :=
  if m.any (fun p => p.1 == k) then
    m.map (fun p => if p.1 == k then (k, v) else p)
  else
    match isArrayIndexKey k with
    | some n => insertNumericKey k n v m
    | none => m ++ [(k, v)]

/-- Model of `JSON.parse` on the text of a flat JSON object, abstracted to
the member list of the text (keys with their values, in textual order): the
parser creates the properties one by one in textual order, so the resulting
object's property order follows `createDataProperty`. -/
def jsonParseFields (fields : List (String × V)) : List (String × V) :=
  fields.foldl (fun m p => createDataProperty m p.1 p.2) []

/-- Model of `Object.values`: the values in own property order. -/
def objectValues (m : List (String × V)) : List V :=
  m.map Prod.snd

/-- `fromJSON(proto, json)` (both sources):
`const obj = JSON.parse(json); const values = Object.values(obj);
return new proto.constructor(...values);`.  The JSON text is abstracted to
its member list and `proto.constructor` to the function `ctor` receiving the
spread argument list. -/
def fromJSON (ctor : List V → A) (jsonFields : List (String × V)) : A :=
  ctor (objectValues (jsonParseFields jsonFields))

/-- Render one JSON string literal (keys in the claims contain no characters
needing escapes). -/
def quoteKey (s : String) : String :=
  "\"" ++ s ++ "\""

/-- Render the member list of a flat JSON object with integer values, comma
separated. -/
def renderFields : List (String × Int) → String
  | [] => ""
  | [(k, v)] => quoteKey k ++ ":" ++ toString v
  | (k, v) :: t => quoteKey k ++ ":" ++ toString v ++ "," ++ renderFields t

/-- `getJSON(obj) = JSON.stringify(obj)` for a flat object with integer
values: `JSON.stringify` serialises the own enumerable properties in property
order, producing `\x7b"k1":v1,...\x7d`. -/
def getJSON (m : List (String × Int)) : String :=
  "\x7b" ++ renderFields m ++ "\x7d"

/-- The sigil-prefixed texts that the operations of kind `k` in a call chain
insert, in call order. -/
def fragsOfKind (k : ElementKind) (ops : List FragOp) : List String :=
  (ops.filter (fun o => kindOf o == k)).map fragText

/-- The map value a nonempty group of same-kind fragments ends up as: one
plain string for a singleton kind, the array of texts for a repeatable one. -/
def groupValue (k : ElementKind) (l : List String) : MapValue :=
  if isSingletonKind k then .str (String.join l) else .arr l

/-- The map entry contributed by kind `k` after the call chain `ops`
(nothing when no operation of kind `k` occurred). -/
def canonEntry (ops : List FragOp) (k : ElementKind) :
    Option (ElementKind × MapValue) :=
  match fragsOfKind k ops with
  | [] => none
  | l => some (k, groupValue k l)

/-- The fragment map a successful call chain produces, laid out in the fixed
kind order (this is what the reachability argument establishes). -/
def canonMap (ops : List FragOp) : FragMap :=
  elementsPathOrder.filterMap (canonEntry ops)

/-- The rendering the specification prescribes for a call chain: concatenate,
over the kinds in the fixed order `Type, Id, Class, Attribute, PseudoClass,
PseudoElement`, the sigil-prefixed texts of that kind in insertion order —
no separators anywhere, missing kinds contributing nothing. -/
def specRender (ops : List FragOp) : String :=
  String.join (elementsPathOrder.map (fun k => String.join (fragsOfKind k ops)))

theorem strJoin_cons (a : String) (l : List String) :
    String.join (a :: l) = a ++ String.join l := by
  have key : ∀ (t : List String) (x : String),
      t.foldl (fun r s => r ++ s) x = x ++ t.foldl (fun r s => r ++ s) "" := by
    intro t
    induction t with
    | nil => intro x; simp [String.append_empty]
    | cons y t ih =>
        intro x
        simp only [List.foldl_cons]
        rw [ih (x ++ y), ih ("" ++ y), String.empty_append, String.append_assoc]
  show (a :: l).foldl (fun r s => r ++ s) "" = a ++ String.join l
  simp only [List.foldl_cons]
  rw [key l ("" ++ a), String.empty_append]
  rfl

theorem strJoin_append (l1 l2 : List String) :
    String.join (l1 ++ l2) = String.join l1 ++ String.join l2 := by
  induction l1 with
  | nil => simp [String.join, String.empty_append]
  | cons a t ih =>
      rw [List.cons_append, strJoin_cons, strJoin_cons, ih, String.append_assoc]

theorem stringifyMap_eq_join (m : FragMap) :
    stringifyMap m = String.join (m.map (fun p => valueText p.2)) := by
  show m.foldl (fun result p => result ++ valueText p.2) "" = _
  rw [String.join, ← List.foldl_map (fun p : ElementKind × MapValue => valueText p.2)
    (fun r s => r ++ s)]

theorem mem_elementsPathOrder (k : ElementKind) : k ∈ elementsPathOrder := by
  cases k <;> decide

theorem checkElementOrder_eq_filter (k : ElementKind) (m : FragMap) :
    checkElementOrder k m =
      (elementsPathOrder.filter (fun k2 => kindIndex k < kindIndex k2)).any
        (fun k2 => mapHas k2 m) := by
  cases k <;> rfl

/-- C4: on a builder already carrying a `TAG`, `ID`, or `PSEUDO_ELEMENT`
fragment, calling `element`, `id`, or `pseudoElement` respectively throws the
duplicate error and leaves the map unchanged, whatever else the map holds:
the duplicate check runs before anything else in each of those methods. -/
theorem c4_duplicate_error (m : FragMap) (v : String) :
    (mapHas .TAG m = true →
      SelectorBuilder.element v m = (m, some .dupErr))
    ∧ (mapHas .ID m = true →
      SelectorBuilder.id v m = (m, some .dupErr))
    ∧ (mapHas .PSEUDO_ELEMENT m = true →
      SelectorBuilder.pseudoElement v m = (m, some .dupErr)) := by
  refine ⟨fun h => ?_, fun h => ?_, fun h => ?_⟩ <;>
    simp [SelectorBuilder.element, SelectorBuilder.id,
      SelectorBuilder.pseudoElement, checkElementExist, checkIdExist,
      checkPseudoElementExist, h]

theorem c4_witness :
    (SelectorBuilder.element "x"
      [(.TAG, .str "t"), (.ID, .str "#i"), (.PSEUDO_ELEMENT, .str "::e")] =
      ([(.TAG, .str "t"), (.ID, .str "#i"), (.PSEUDO_ELEMENT, .str "::e")],
        some .dupErr))
    ∧ (SelectorBuilder.id "x"
      [(.TAG, .str "t"), (.ID, .str "#i"), (.PSEUDO_ELEMENT, .str "::e")] =
      ([(.TAG, .str "t"), (.ID, .str "#i"), (.PSEUDO_ELEMENT, .str "::e")],
        some .dupErr))
    ∧ (SelectorBuilder.pseudoElement "x"
      [(.TAG, .str "t"), (.ID, .str "#i"), (.PSEUDO_ELEMENT, .str "::e")] =
      ([(.TAG, .str "t"), (.ID, .str "#i"), (.PSEUDO_ELEMENT, .str "::e")],
        some .dupErr)) :=
  ⟨(c4_duplicate_error _ "x").1 rfl, (c4_duplicate_error _ "x").2.1 rfl,
    (c4_duplicate_error _ "x").2.2 rfl⟩

/-- C7: every failing builder operation is atomic — whenever a fragment
method reports an error, the fragment map it leaves behind is exactly the
map from before the call (all checks run before any mutation). -/
theorem applyOpSt_ok_or_unchanged (o : FragOp) (m : FragMap) :
    (applyOpSt o m).2 = none ∨ (applyOpSt o m).1 = m := by
  cases o <;>
    simp only [applyOpSt, SelectorBuilder.element, SelectorBuilder.id,
      SelectorBuilder.cls, SelectorBuilder.attr, SelectorBuilder.pseudoClass,
      SelectorBuilder.pseudoElement, setArrayValueToMap] <;>
    repeat' split <;> (try simp)

theorem c7_error_atomicity (o : FragOp) (m : FragMap) (e : JsError) :
    (applyOpSt o m).2 = some e → (applyOpSt o m).1 = m := by
  intro h
  rcases applyOpSt_ok_or_unchanged o m with hn | hm
  · rw [hn] at h
    exact Option.noConfusion h
  · exact hm

theorem c7_witness :
    (applyOpSt (FragOp.id "x") [(.CLASS, .arr [".c"])]).1 =
      [(.CLASS, .arr [".c"])] :=
  c7_error_atomicity (FragOp.id "x") [(.CLASS, .arr [".c"])] .orderErr rfl

/-- C5: for any two nodes and any combinator symbol, the combined node built
by the facade renders as left rendering, single space, symbol, single space,
right rendering, in both implementations, with no validation of the symbol
(the symbol is an arbitrary string). -/
theorem c5_combine_stringify (a b : NodeA) (x y : NodeB) (s : String) :
    (stringifyA (facadeCombineA a s b)).1 =
      (stringifyA a).1 ++ " " ++ s ++ " " ++ (stringifyA b).1
    ∧ stringifyB (NodeB.combined x s y) =
      stringifyB x ++ " " ++ s ++ " " ++ stringifyB y :=
  ⟨rfl, rfl⟩

/-- C2 counterexample: in `src/src/05-objects-tasks.js`, a combinator node
built by the facade renders once and then never again — the first
`stringify()` clears `combineSelector`, so the second call renders the empty
fragment map; the node state after the first call differs from the state
before it. -/
theorem c2_counterexample :
    (stringifyA (facadeCombineA (NodeA.simple [(.TAG, .str "a")]) "+"
        (NodeA.simple [(.TAG, .str "b")]))).1 = "a + b"
    ∧ (stringifyA ((stringifyA (facadeCombineA (NodeA.simple [(.TAG, .str "a")])
        "+" (NodeA.simple [(.TAG, .str "b")]))).2)).1 = ""
    ∧ (stringifyA (facadeCombineA (NodeA.simple [(.TAG, .str "a")]) "+"
        (NodeA.simple [(.TAG, .str "b")]))).2 ≠
      facadeCombineA (NodeA.simple [(.TAG, .str "a")]) "+"
        (NodeA.simple [(.TAG, .str "b")]) := by
  refine ⟨rfl, rfl, ?_⟩
  decide

/-- C2 amended: rendering a simple node is side-effect-free and repeatable
in both implementations (and `part_000`'s combinator rendering is a pure
function by translation), but in `src/src/05-objects-tasks.js` the first
`stringify()` on a combinator node clears the `combineSelector` flag; after
that first call the node state is a fixed point of `stringify`, and every
later call returns the fragment-map rendering — the empty string for a
facade-built combinator node — instead of the combined rendering. -/
theorem c2_stringify_amended (m : FragMap) (n s1 s2 : NodeA) (c : String)
    (b1 b2 : NodeB) :
    stringifyA (NodeA.simple m) = (stringifyMap m, NodeA.simple m)
    ∧ (stringifyA ((stringifyA n).2)).2 = (stringifyA n).2
    ∧ (stringifyA ((stringifyA (facadeCombineA s1 c s2)).2)).1 = ""
    ∧ stringifyB (NodeB.combined b1 c b2) =
        stringifyB b1 ++ " " ++ c ++ " " ++ stringifyB b2 := by
  refine ⟨rfl, ?_, rfl, rfl⟩
  cases n with
  | simple m2 => rfl
  | combined m2 flag a c2 b => cases flag <;> rfl

/-- C6 counterexample: `getArea` multiplies the captured constructor
parameters, so after the external field mutation `r.width = 5` on
`Rectangle(10, 20)` it still returns 200 while the current fields multiply
to 100 — not the product of the current field values. -/
theorem c6_counterexample :
    (setWidth (Rectangle 10 20) 5).getArea = 200
    ∧ (setWidth (Rectangle 10 20) 5).width *
        (setWidth (Rectangle 10 20) 5).height = 100
    ∧ (setWidth (Rectangle 10 20) 5).getArea ≠
        (setWidth (Rectangle 10 20) 5).width *
          (setWidth (Rectangle 10 20) 5).height := by
  refine ⟨rfl, rfl, ?_⟩
  decide

/-- C6 amended: `Rectangle(width, height)` exposes `width`, `height` and a
zero-argument `getArea()` recomputing on every call the product of the
width and height captured at construction; external mutation of the fields
changes the fields but not the value `getArea()` returns. -/
theorem c6_getArea_amended (w h w2 h2 : Int) :
    (Rectangle w h).width = w
    ∧ (Rectangle w h).height = h
    ∧ (Rectangle w h).getArea = w * h
    ∧ (setHeight (setWidth (Rectangle w h) w2) h2).width = w2
    ∧ (setHeight (setWidth (Rectangle w h) w2) h2).height = h2
    ∧ (setHeight (setWidth (Rectangle w h) w2) h2).getArea = w * h :=
  ⟨rfl, rfl, rfl, rfl, rfl, rfl⟩

/-- C3 counterexample: the builder reached by `element('a').class('b')` has a
`CLASS` fragment (a kind strictly greater than `TAG`), yet calling
`element('c')` on it throws the duplicate error, not the order error: the
duplicate check runs before the order check. -/
theorem c3_counterexample :
    runOps [FragOp.element "a", FragOp.cls "b"] =
      .ok [(.TAG, .str "a"), (.CLASS, .arr [".b"])]
    ∧ applyOpSt (FragOp.element "c") [(.TAG, .str "a"), (.CLASS, .arr [".b"])] =
        ([(.TAG, .str "a"), (.CLASS, .arr [".b"])], some .dupErr)
    ∧ JsError.dupErr ≠ JsError.orderErr := by
  refine ⟨rfl, rfl, ?_⟩
  decide

/-- C3 amended: inserting a fragment of kind K into a map that already holds
some fragment of a kind strictly greater than K raises the order-violation
error, provided the insertion is not itself a duplicate of a singleton kind
already present (in that case the duplicate check fires first, see the
counterexample). -/
theorem c3_order_amended (m : FragMap) (o : FragOp)
    (hgt : ∃ k, kindIndex (kindOf o) < kindIndex k ∧ mapHas k m = true)
    (hnd : isSingletonKind (kindOf o) = false ∨ mapHas (kindOf o) m = false) :
    applyOpSt o m = (m, some .orderErr) := by
  obtain ⟨k2, hlt, hhas⟩ := hgt
  have hord : checkElementOrder (kindOf o) m = true := by
    rw [checkElementOrder_eq_filter, List.any_eq_true]
    refine ⟨k2, List.mem_filter.mpr ⟨mem_elementsPathOrder k2, ?_⟩, hhas⟩
    simpa using hlt
  cases o <;> simp only [kindOf] at hord hnd <;>
    simp [applyOpSt, SelectorBuilder.element, SelectorBuilder.id,
      SelectorBuilder.cls, SelectorBuilder.attr, SelectorBuilder.pseudoClass,
      SelectorBuilder.pseudoElement, checkElementExist, checkIdExist,
      checkPseudoElementExist, hord, isSingletonKind] at hnd ⊢ <;>
    simp [hnd]

theorem c3_witness :
    applyOpSt (FragOp.id "x") [(.CLASS, .arr [".b"])] =
      ([(.CLASS, .arr [".b"])], some .orderErr) :=
  c3_order_amended [(.CLASS, .arr [".b"])] (FragOp.id "x")
    ⟨.CLASS, by decide, by decide⟩ (Or.inr (by decide))

theorem stringifyA_nodeAOfB (b : NodeB) :
    (stringifyA (nodeAOfB b)).1 = stringifyB b := by
  induction b with
  | simple m => rfl
  | combined s1 c s2 ih1 ih2 =>
      simp only [nodeAOfB, stringifyA, stringifyB, ih1, ih2]

theorem buildA_eq_map_buildB (e : BuildExpr) :
    buildA e = Except.map nodeAOfB (buildB e) := by
  induction e with
  | simple ops =>
      simp only [buildA, buildB]
      cases runOps ops <;> rfl
  | combine l c r ihl ihr =>
      simp only [buildA, buildB, ihl, ihr]
      cases buildB l <;> cases buildB r <;> rfl

/-- C10 counterexample: on the facade trace
`combine(element('a'), '+', element('b'))` followed by two `stringify()`
calls on the resulting node, `src/src/05-objects-tasks.js` returns
`'a + b'` and then `''` (the first call cleared `combineSelector`), while
`src/unnamed/part_000` returns `'a + b'` both times — the two
implementations are not observationally equivalent. -/
theorem c10_counterexample :
    buildA (BuildExpr.combine (.simple [.element "a"]) "+"
        (.simple [.element "b"])) =
      .ok (facadeCombineA (NodeA.simple [(.TAG, .str "a")]) "+"
        (NodeA.simple [(.TAG, .str "b")]))
    ∧ buildB (BuildExpr.combine (.simple [.element "a"]) "+"
        (.simple [.element "b"])) =
      .ok (NodeB.combined (NodeB.simple [(.TAG, .str "a")]) "+"
        (NodeB.simple [(.TAG, .str "b")]))
    ∧ (stringifyA (facadeCombineA (NodeA.simple [(.TAG, .str "a")]) "+"
        (NodeA.simple [(.TAG, .str "b")]))).1 = "a + b"
    ∧ stringifyB (NodeB.combined (NodeB.simple [(.TAG, .str "a")]) "+"
        (NodeB.simple [(.TAG, .str "b")])) = "a + b"
    ∧ (stringifyA ((stringifyA (facadeCombineA (NodeA.simple [(.TAG, .str "a")])
        "+" (NodeA.simple [(.TAG, .str "b")]))).2)).1 = ""
    ∧ ("" : String) ≠ "a + b" := by
  refine ⟨rfl, rfl, rfl, rfl, rfl, ?_⟩
  decide

/-- C10 amended: the two implementations agree on every facade construction
(both fail with the same error, or succeed with corresponding nodes) and on
the first `stringify()` call of every node so built; they diverge only on
repeated `stringify()` calls on a combinator node (see the counterexample). -/
theorem c10_equiv_amended (e : BuildExpr) (b : NodeB) :
    buildA e = Except.map nodeAOfB (buildB e)
    ∧ (stringifyA (nodeAOfB b)).1 = stringifyB b :=
  ⟨buildA_eq_map_buildB e, stringifyA_nodeAOfB b⟩

theorem strJoin_singleton (x : String) : String.join [x] = x := by
  rw [strJoin_cons]
  exact String.append_empty x

theorem mapHas_eq_false_iff (k : ElementKind) (m : FragMap) :
    mapHas k m = false ↔ ∀ p ∈ m, p.1 ≠ k := by
  constructor
  · intro h p hp hk
    have ht : mapHas k m = true := by
      rw [mapHas, List.any_eq_true]
      exact ⟨p, hp, by simp [hk]⟩
    rw [h] at ht
    exact Bool.noConfusion ht
  · intro h
    by_contra hc
    rw [Bool.not_eq_false, mapHas, List.any_eq_true] at hc
    obtain ⟨p, hp, hk⟩ := hc
    exact h p hp (by simpa using hk)

theorem mapHas_append (k : ElementKind) (m1 m2 : FragMap) :
    mapHas k (m1 ++ m2) = (mapHas k m1 || mapHas k m2) :=
  List.any_append

theorem mapGet_eq_none_of_not_has (k : ElementKind) (m : FragMap)
    (h : mapHas k m = false) : mapGet k m = none := by
  induction m with
  | nil => rfl
  | cons p t ih =>
      rw [mapHas_eq_false_iff] at h
      have hp : p.1 ≠ k := h p (List.mem_cons_self p t)
      have ht : mapHas k t = false := by
        rw [mapHas_eq_false_iff]
        exact fun q hq => h q (List.mem_cons_of_mem p hq)
      simp [mapGet, hp, ih ht]

theorem mapGet_append_right (k : ElementKind) (m1 m2 : FragMap)
    (h : mapHas k m1 = false) : mapGet k (m1 ++ m2) = mapGet k m2 := by
  induction m1 with
  | nil => rfl
  | cons p t ih =>
      rw [mapHas_eq_false_iff] at h
      have hp : p.1 ≠ k := h p (List.mem_cons_self p t)
      have ht : mapHas k t = false := by
        rw [mapHas_eq_false_iff]
        exact fun q hq => h q (List.mem_cons_of_mem p hq)
      simp [mapGet, hp, ih ht]

theorem mapSet_of_not_has (k : ElementKind) (v : MapValue) (m : FragMap)
    (h : mapHas k m = false) : mapSet k v m = m ++ [(k, v)] := by
  simp [mapSet, h]

theorem mapSet_append_entry (k : ElementKind) (v w : MapValue) (m1 : FragMap)
    (h : mapHas k m1 = false) :
    mapSet k v (m1 ++ [(k, w)]) = m1 ++ [(k, v)] := by
  have hh : mapHas k (m1 ++ [(k, w)]) = true := by
    rw [mapHas_append, h]
    simp [mapHas]
  rw [mapHas_eq_false_iff] at h
  simp only [mapSet, hh, if_true, List.map_append]
  congr 1
  · trans (List.map id m1)
    · exact List.map_congr_left fun p hp => by simp [h p hp]
    · exact List.map_id m1
  · simp

theorem canonEntry_eq_none_iff (ops : List FragOp) (k : ElementKind) :
    canonEntry ops k = none ↔ fragsOfKind k ops = [] := by
  unfold canonEntry
  cases fragsOfKind k ops <;> simp

theorem canonEntry_some_key (ops : List FragOp) (k : ElementKind)
    (p : ElementKind × MapValue) (h : canonEntry ops k = some p) :
    p.1 = k ∧ fragsOfKind k ops ≠ [] := by
  unfold canonEntry at h
  cases hf : fragsOfKind k ops with
  | nil => rw [hf] at h; exact Option.noConfusion h
  | cons x t =>
      rw [hf] at h
      cases h
      simp

theorem mapHas_canon (k : ElementKind) (ops : List FragOp) :
    mapHas k (canonMap ops) = true ↔ fragsOfKind k ops ≠ [] := by
  constructor
  · intro h
    rw [mapHas, List.any_eq_true] at h
    obtain ⟨p, hp, hk⟩ := h
    rw [canonMap, List.mem_filterMap] at hp
    obtain ⟨k2, _, hF⟩ := hp
    obtain ⟨hkey, hne⟩ := canonEntry_some_key ops k2 p hF
    rw [beq_iff_eq] at hk
    rw [hkey] at hk
    rwa [hk] at hne
  · intro h
    cases hf : fragsOfKind k ops with
    | nil => exact absurd hf h
    | cons x t =>
        rw [mapHas, List.any_eq_true]
        refine ⟨(k, groupValue k (x :: t)), ?_, by simp⟩
        rw [canonMap, List.mem_filterMap]
        exact ⟨k, mem_elementsPathOrder k, by rw [canonEntry, hf]⟩

theorem mapHas_canon_false (k : ElementKind) (ops : List FragOp) :
    mapHas k (canonMap ops) = false ↔ fragsOfKind k ops = [] := by
  constructor
  · intro h
    by_contra hc
    have ht := (mapHas_canon k ops).2 hc
    rw [h] at ht
    exact Bool.noConfusion ht
  · intro h
    by_contra hc
    rw [Bool.not_eq_false] at hc
    exact (mapHas_canon k ops).1 hc h

theorem mapHas_filterMap_not_mem (ops : List FragOp) (ks : List ElementKind)
    (k : ElementKind) (h : k ∉ ks) :
    mapHas k (ks.filterMap (canonEntry ops)) = false := by
  rw [mapHas_eq_false_iff]
  intro p hp
  rw [List.mem_filterMap] at hp
  obtain ⟨k2, hk2, hF⟩ := hp
  obtain ⟨hkey, -⟩ := canonEntry_some_key ops k2 p hF
  rw [hkey]
  exact fun heq => h (heq ▸ hk2)

theorem frags_append (k : ElementKind) (ops : List FragOp) (o : FragOp) :
    fragsOfKind k (ops ++ [o]) =
      fragsOfKind k ops ++ (if kindOf o = k then [fragText o] else []) := by
  unfold fragsOfKind
  rw [List.filter_append, List.map_append]
  congr 1
  by_cases h : kindOf o = k <;> simp [h]

theorem canonEntry_append_ne (ops : List FragOp) (o : FragOp)
    (k : ElementKind) (h : kindOf o ≠ k) :
    canonEntry (ops ++ [o]) k = canonEntry ops k := by
  unfold canonEntry
  rw [frags_append, if_neg h, List.append_nil]

theorem canonMap_decomp (ops : List FragOp) (pre post : List ElementKind)
    (K : ElementKind) (hsplit : elementsPathOrder = pre ++ K :: post)
    (hpost : ∀ k2 ∈ post, fragsOfKind k2 ops = []) :
    canonMap ops = pre.filterMap (canonEntry ops) ++ (canonEntry ops K).toList := by
  have hfm : post.filterMap (canonEntry ops) = [] := by
    rw [List.filterMap_eq_nil_iff]
    exact fun k2 hk2 => (canonEntry_eq_none_iff ops k2).2 (hpost k2 hk2)
  rw [canonMap, hsplit, List.filterMap_append]
  cases hE : canonEntry ops K <;> simp [List.filterMap_cons, hE, hfm]

theorem canonMap_update (ops : List FragOp) (o : FragOp)
    (pre post : List ElementKind)
    (hsplit : elementsPathOrder = pre ++ kindOf o :: post)
    (hpreK : kindOf o ∉ pre) (hpostK : kindOf o ∉ post)
    (hpost : ∀ k2 ∈ post, fragsOfKind k2 ops = []) :
    canonMap (ops ++ [o]) =
      pre.filterMap (canonEntry ops) ++
        [(kindOf o,
          groupValue (kindOf o) (fragsOfKind (kindOf o) ops ++ [fragText o]))] := by
  have h1 : pre.filterMap (canonEntry (ops ++ [o])) =
      pre.filterMap (canonEntry ops) :=
    List.filterMap_congr fun k2 hk2 =>
      canonEntry_append_ne ops o k2 (fun he => hpreK (he ▸ hk2))
  have h2 : post.filterMap (canonEntry (ops ++ [o])) = [] := by
    rw [List.filterMap_eq_nil_iff]
    intro k2 hk2
    rw [canonEntry_append_ne ops o k2 (fun he => hpostK (he ▸ hk2))]
    exact (canonEntry_eq_none_iff ops k2).2 (hpost k2 hk2)
  have h3 : canonEntry (ops ++ [o]) (kindOf o) =
      some (kindOf o,
        groupValue (kindOf o) (fragsOfKind (kindOf o) ops ++ [fragText o])) := by
    cases hf : fragsOfKind (kindOf o) ops <;>
      simp [canonEntry, frags_append, hf]
  rw [canonMap, hsplit, List.filterMap_append]
  simp [List.filterMap_cons, h1, h2, h3]

theorem checkOrder_false_frags (k k2 : ElementKind) (ops : List FragOp)
    (h : checkElementOrder k (canonMap ops) = false)
    (hlt : kindIndex k < kindIndex k2) : fragsOfKind k2 ops = [] := by
  rw [← mapHas_canon_false]
  rw [checkElementOrder_eq_filter] at h
  by_contra hc
  rw [Bool.not_eq_false] at hc
  have hmem : k2 ∈ elementsPathOrder.filter (fun x => kindIndex k < kindIndex x) :=
    List.mem_filter.mpr ⟨mem_elementsPathOrder k2, by simpa using hlt⟩
  have ha : (elementsPathOrder.filter (fun x => kindIndex k < kindIndex x)).any
      (fun x => mapHas x (canonMap ops)) = true :=
    List.any_eq_true.mpr ⟨k2, hmem, hc⟩
  rw [h] at ha
  exact Bool.noConfusion ha

theorem canon_get_none (ops : List FragOp) (pre post : List ElementKind)
    (K : ElementKind) (hsplit : elementsPathOrder = pre ++ K :: post)
    (hpreK : K ∉ pre) (hpost : ∀ k2 ∈ post, fragsOfKind k2 ops = [])
    (hf : fragsOfKind K ops = []) : mapGet K (canonMap ops) = none := by
  have hE := (canonEntry_eq_none_iff ops K).2 hf
  rw [canonMap_decomp ops pre post K hsplit hpost, hE]
  simp only [Option.toList, List.append_nil]
  exact mapGet_eq_none_of_not_has _ _ (mapHas_filterMap_not_mem ops pre K hpreK)

theorem canon_get_rep (ops : List FragOp) (pre post : List ElementKind)
    (K : ElementKind) (x : String) (t : List String)
    (hsplit : elementsPathOrder = pre ++ K :: post)
    (hpreK : K ∉ pre) (hpost : ∀ k2 ∈ post, fragsOfKind k2 ops = [])
    (hf : fragsOfKind K ops = x :: t) (hrep : isSingletonKind K = false) :
    mapGet K (canonMap ops) = some (.arr (x :: t)) := by
  have hE : canonEntry ops K = some (K, .arr (x :: t)) := by
    simp [canonEntry, hf, groupValue, hrep]
  rw [canonMap_decomp ops pre post K hsplit hpost, hE]
  rw [mapGet_append_right _ _ _ (mapHas_filterMap_not_mem ops pre K hpreK)]
  simp [mapGet]

theorem canon_insert_fresh (ops : List FragOp) (o : FragOp)
    (pre post : List ElementKind)
    (hsplit : elementsPathOrder = pre ++ kindOf o :: post)
    (hpreK : kindOf o ∉ pre) (hpostK : kindOf o ∉ post)
    (hpost : ∀ k2 ∈ post, fragsOfKind k2 ops = [])
    (hf : fragsOfKind (kindOf o) ops = []) :
    mapSet (kindOf o) (groupValue (kindOf o) [fragText o]) (canonMap ops) =
      canonMap (ops ++ [o]) := by
  have hE := (canonEntry_eq_none_iff ops (kindOf o)).2 hf
  have hpreHas : mapHas (kindOf o) (pre.filterMap (canonEntry ops)) = false :=
    mapHas_filterMap_not_mem ops pre (kindOf o) hpreK
  rw [canonMap_update ops o pre post hsplit hpreK hpostK hpost, hf]
  rw [canonMap_decomp ops pre post (kindOf o) hsplit hpost, hE]
  simp only [Option.toList, List.append_nil, List.nil_append]
  exact mapSet_of_not_has _ _ _ hpreHas

theorem canon_insert_push (ops : List FragOp) (o : FragOp)
    (pre post : List ElementKind) (x : String) (t : List String)
    (hsplit : elementsPathOrder = pre ++ kindOf o :: post)
    (hpreK : kindOf o ∉ pre) (hpostK : kindOf o ∉ post)
    (hpost : ∀ k2 ∈ post, fragsOfKind k2 ops = [])
    (hf : fragsOfKind (kindOf o) ops = x :: t)
    (hrep : isSingletonKind (kindOf o) = false) :
    mapSet (kindOf o) (.arr ((x :: t) ++ [fragText o])) (canonMap ops) =
      canonMap (ops ++ [o]) := by
  have hE : canonEntry ops (kindOf o) = some (kindOf o, .arr (x :: t)) := by
    simp [canonEntry, hf, groupValue, hrep]
  have hpreHas : mapHas (kindOf o) (pre.filterMap (canonEntry ops)) = false :=
    mapHas_filterMap_not_mem ops pre (kindOf o) hpreK
  rw [canonMap_update ops o pre post hsplit hpreK hpostK hpost, hf]
  rw [canonMap_decomp ops pre post (kindOf o) hsplit hpost, hE]
  simp only [Option.toList]
  rw [mapSet_append_entry _ _ _ _ hpreHas]
  simp [groupValue, hrep]

theorem step_canon (ops : List FragOp) (o : FragOp) (m2 : FragMap)
    (h : applyOp o (canonMap ops) = .ok m2) : m2 = canonMap (ops ++ [o]) := by
  cases o with
  | element v =>
      have hdup : mapHas .TAG (canonMap ops) = false := by
        by_contra hc
        rw [Bool.not_eq_false] at hc
        simp [applyOp, applyOpSt, SelectorBuilder.element, checkElementExist,
          hc] at h
      have hord : checkElementOrder .TAG (canonMap ops) = false := by
        by_contra hc
        rw [Bool.not_eq_false] at hc
        simp [applyOp, applyOpSt, SelectorBuilder.element, checkElementExist,
          hdup, hc] at h
      have hpost : ∀ k2 ∈ ([.ID, .CLASS, .ATTRIBUTE, .PSEUDO_CLASS,
          .PSEUDO_ELEMENT] : List ElementKind), fragsOfKind k2 ops = [] := by
        intro k2 hk2
        refine checkOrder_false_frags .TAG k2 ops hord ?_
        fin_cases hk2 <;> decide
      have hf : fragsOfKind .TAG ops = [] := (mapHas_canon_false _ _).1 hdup
      simp [applyOp, applyOpSt, SelectorBuilder.element, checkElementExist,
        hdup, hord] at h
      have hgv : groupValue .TAG [fragText (FragOp.element v)] = .str v := by
        simp [groupValue, isSingletonKind, fragText, strJoin_singleton]
      rw [← h, ← hgv]
      exact canon_insert_fresh ops (.element v) [] _ rfl (by simp [kindOf]) (by simp [kindOf])
        hpost hf
  | id v =>
      have hdup : mapHas .ID (canonMap ops) = false := by
        by_contra hc
        rw [Bool.not_eq_false] at hc
        simp [applyOp, applyOpSt, SelectorBuilder.id, checkIdExist, hc] at h
      have hord : checkElementOrder .ID (canonMap ops) = false := by
        by_contra hc
        rw [Bool.not_eq_false] at hc
        simp [applyOp, applyOpSt, SelectorBuilder.id, checkIdExist, hdup,
          hc] at h
      have hpost : ∀ k2 ∈ ([.CLASS, .ATTRIBUTE, .PSEUDO_CLASS,
          .PSEUDO_ELEMENT] : List ElementKind), fragsOfKind k2 ops = [] := by
        intro k2 hk2
        refine checkOrder_false_frags .ID k2 ops hord ?_
        fin_cases hk2 <;> decide
      have hf : fragsOfKind .ID ops = [] := (mapHas_canon_false _ _).1 hdup
      simp [applyOp, applyOpSt, SelectorBuilder.id, checkIdExist, hdup,
        hord] at h
      have hgv : groupValue .ID [fragText (FragOp.id v)] = .str ("#" ++ v) := by
        simp [groupValue, isSingletonKind, fragText, strJoin_singleton]
      rw [← h, ← hgv]
      exact canon_insert_fresh ops (.id v) [.TAG] _ rfl (by simp [kindOf]) (by simp [kindOf])
        hpost hf
  | pseudoElement v =>
      have hdup : mapHas .PSEUDO_ELEMENT (canonMap ops) = false := by
        by_contra hc
        rw [Bool.not_eq_false] at hc
        simp [applyOp, applyOpSt, SelectorBuilder.pseudoElement,
          checkPseudoElementExist, hc] at h
      have hpost : ∀ k2 ∈ ([] : List ElementKind), fragsOfKind k2 ops = [] := by
        simp
      have hf : fragsOfKind .PSEUDO_ELEMENT ops = [] :=
        (mapHas_canon_false _ _).1 hdup
      simp [applyOp, applyOpSt, SelectorBuilder.pseudoElement,
        checkPseudoElementExist, hdup, checkElementOrder,
        elementsPathOrder] at h
      have hgv : groupValue .PSEUDO_ELEMENT [fragText (FragOp.pseudoElement v)] =
          .str ("::" ++ v) := by
        simp [groupValue, isSingletonKind, fragText, strJoin_singleton]
      rw [← h, ← hgv]
      exact canon_insert_fresh ops (.pseudoElement v)
        [.TAG, .ID, .CLASS, .ATTRIBUTE, .PSEUDO_CLASS] _ rfl (by simp [kindOf])
        (by simp [kindOf]) hpost hf
  | cls v =>
      have hord : checkElementOrder .CLASS (canonMap ops) = false := by
        by_contra hc
        rw [Bool.not_eq_false] at hc
        simp [applyOp, applyOpSt, SelectorBuilder.cls, hc] at h
      have hpost : ∀ k2 ∈ ([.ATTRIBUTE, .PSEUDO_CLASS,
          .PSEUDO_ELEMENT] : List ElementKind), fragsOfKind k2 ops = [] := by
        intro k2 hk2
        refine checkOrder_false_frags .CLASS k2 ops hord ?_
        fin_cases hk2 <;> decide
      cases hf : fragsOfKind .CLASS ops with
      | nil =>
          have hget : mapGet .CLASS (canonMap ops) = none :=
            canon_get_none ops [.TAG, .ID] _ .CLASS rfl (by simp [kindOf]) hpost hf
          simp [applyOp, applyOpSt, SelectorBuilder.cls, hord,
            setArrayValueToMap, hget] at h
          rw [← h]
          exact canon_insert_fresh ops (.cls v) [.TAG, .ID] _ rfl (by simp [kindOf])
            (by simp [kindOf]) hpost hf
      | cons x t =>
          have hget : mapGet .CLASS (canonMap ops) = some (.arr (x :: t)) :=
            canon_get_rep ops [.TAG, .ID] _ .CLASS x t rfl (by simp [kindOf]) hpost hf
              rfl
          simp [applyOp, applyOpSt, SelectorBuilder.cls, hord,
            setArrayValueToMap, hget] at h
          rw [← h]
          exact canon_insert_push ops (.cls v) [.TAG, .ID] _ x t rfl (by simp [kindOf])
            (by simp [kindOf]) hpost hf rfl
  | attr v =>
      have hord : checkElementOrder .ATTRIBUTE (canonMap ops) = false := by
        by_contra hc
        rw [Bool.not_eq_false] at hc
        simp [applyOp, applyOpSt, SelectorBuilder.attr, hc] at h
      have hpost : ∀ k2 ∈ ([.PSEUDO_CLASS,
          .PSEUDO_ELEMENT] : List ElementKind), fragsOfKind k2 ops = [] := by
        intro k2 hk2
        refine checkOrder_false_frags .ATTRIBUTE k2 ops hord ?_
        fin_cases hk2 <;> decide
      cases hf : fragsOfKind .ATTRIBUTE ops with
      | nil =>
          have hget : mapGet .ATTRIBUTE (canonMap ops) = none :=
            canon_get_none ops [.TAG, .ID, .CLASS] _ .ATTRIBUTE rfl (by simp [kindOf])
              hpost hf
          simp [applyOp, applyOpSt, SelectorBuilder.attr, hord,
            setArrayValueToMap, hget] at h
          rw [← h]
          exact canon_insert_fresh ops (.attr v) [.TAG, .ID, .CLASS] _ rfl
            (by simp [kindOf]) (by simp [kindOf]) hpost hf
      | cons x t =>
          have hget : mapGet .ATTRIBUTE (canonMap ops) = some (.arr (x :: t)) :=
            canon_get_rep ops [.TAG, .ID, .CLASS] _ .ATTRIBUTE x t rfl
              (by simp [kindOf]) hpost hf rfl
          simp [applyOp, applyOpSt, SelectorBuilder.attr, hord,
            setArrayValueToMap, hget] at h
          rw [← h]
          exact canon_insert_push ops (.attr v) [.TAG, .ID, .CLASS] _ x t rfl
            (by simp [kindOf]) (by simp [kindOf]) hpost hf rfl
  | pseudoClass v =>
      have hord : checkElementOrder .PSEUDO_CLASS (canonMap ops) = false := by
        by_contra hc
        rw [Bool.not_eq_false] at hc
        simp [applyOp, applyOpSt, SelectorBuilder.pseudoClass, hc] at h
      have hpost : ∀ k2 ∈ ([.PSEUDO_ELEMENT] : List ElementKind),
          fragsOfKind k2 ops = [] := by
        intro k2 hk2
        refine checkOrder_false_frags .PSEUDO_CLASS k2 ops hord ?_
        fin_cases hk2
        decide
      cases hf : fragsOfKind .PSEUDO_CLASS ops with
      | nil =>
          have hget : mapGet .PSEUDO_CLASS (canonMap ops) = none :=
            canon_get_none ops [.TAG, .ID, .CLASS, .ATTRIBUTE] _ .PSEUDO_CLASS
              rfl (by simp [kindOf]) hpost hf
          simp [applyOp, applyOpSt, SelectorBuilder.pseudoClass, hord,
            setArrayValueToMap, hget] at h
          rw [← h]
          exact canon_insert_fresh ops (.pseudoClass v)
            [.TAG, .ID, .CLASS, .ATTRIBUTE] _ rfl (by simp [kindOf]) (by simp [kindOf])
            hpost hf
      | cons x t =>
          have hget : mapGet .PSEUDO_CLASS (canonMap ops) =
              some (.arr (x :: t)) :=
            canon_get_rep ops [.TAG, .ID, .CLASS, .ATTRIBUTE] _ .PSEUDO_CLASS
              x t rfl (by simp [kindOf]) hpost hf rfl
          simp [applyOp, applyOpSt, SelectorBuilder.pseudoClass, hord,
            setArrayValueToMap, hget] at h
          rw [← h]
          exact canon_insert_push ops (.pseudoClass v)
            [.TAG, .ID, .CLASS, .ATTRIBUTE] _ x t rfl (by simp [kindOf]) (by simp [kindOf])
            hpost hf rfl

theorem runOps_canon_aux (ops tr : List FragOp) (m : FragMap)
    (h : ops.foldlM (fun m o => applyOp o m) (canonMap tr) = .ok m) :
    m = canonMap (tr ++ ops) := by
  induction ops generalizing tr with
  | nil =>
      rw [List.foldlM_nil] at h
      cases h
      rw [List.append_nil]
  | cons o rest ih =>
      rw [List.foldlM_cons] at h
      cases ha : applyOp o (canonMap tr) with
      | error e =>
          rw [ha] at h
          simp only [Bind.bind, Except.bind] at h
          exact Except.noConfusion h
      | ok m1 =>
          rw [ha] at h
          simp only [Bind.bind, Except.bind] at h
          rw [step_canon tr o m1 ha] at h
          have hr := ih (tr ++ [o]) h
          rwa [List.append_assoc, List.singleton_append] at hr

theorem runOps_canon (ops : List FragOp) (m : FragMap) (h : runOps ops = .ok m) :
    m = canonMap ops := by
  have hr := runOps_canon_aux ops [] m h
  rwa [List.nil_append] at hr

theorem stringifyMap_canonMap (ops : List FragOp) :
    stringifyMap (canonMap ops) = specRender ops := by
  rw [stringifyMap_eq_join, specRender, canonMap]
  have key : ∀ ks : List ElementKind,
      String.join ((ks.filterMap (canonEntry ops)).map (fun p => valueText p.2)) =
        String.join (ks.map (fun k => String.join (fragsOfKind k ops))) := by
    intro ks
    induction ks with
    | nil => rfl
    | cons k t ih =>
        cases hf : fragsOfKind k ops with
        | nil =>
            have hE := (canonEntry_eq_none_iff ops k).2 hf
            have hjnil : String.join ([] : List String) = "" := rfl
            simp [List.filterMap_cons, hE, strJoin_cons, hf, ih, hjnil,
              String.empty_append]
        | cons x l =>
            have hE : canonEntry ops k = some (k, groupValue k (x :: l)) := by
              simp [canonEntry, hf]
            have hval : valueText (groupValue k (x :: l)) =
                String.join (x :: l) := by
              cases hk : isSingletonKind k <;> simp [groupValue, valueText, hk]
            simp [List.filterMap_cons, hE, strJoin_cons, hf, ih, hval,
              String.append_assoc]
  exact key elementsPathOrder

/-- C1: any chain of fragment insertions on one fresh simple selector builder
that completes without an error yields a map whose `stringify()` rendering is
the concatenation of the present fragments' sigil-prefixed texts in the fixed
kind order Type, Id, Class, Attribute, PseudoClass, PseudoElement, with
repeatable-kind fragments in insertion order, missing kinds contributing
nothing and no separators anywhere (the order checks force the insertion
order of the map to agree with the kind order). -/
theorem c1_stringify_kind_order (ops : List FragOp) (m : FragMap)
    (h : runOps ops = .ok m) : stringifyMap m = specRender ops := by
  rw [runOps_canon ops m h]
  exact stringifyMap_canonMap ops

theorem c1_witness :
    stringifyMap [(.TAG, .str "a"), (.ID, .str "#m"),
      (.CLASS, .arr [".x", ".y"]), (.PSEUDO_ELEMENT, .str "::e")] =
      specRender [.element "a", .id "m", .cls "x", .cls "y",
        .pseudoElement "e"] :=
  c1_stringify_kind_order
    [.element "a", .id "m", .cls "x", .cls "y", .pseudoElement "e"] _ rfl

theorem jsonParse_aux {V : Type} (rest : List (String × V)) :
    ∀ acc : List (String × V),
      (∀ p ∈ rest, isArrayIndexKey p.1 = none) →
      ((acc.map Prod.fst) ++ (rest.map Prod.fst)).Nodup →
      rest.foldl (fun m p => createDataProperty m p.1 p.2) acc = acc ++ rest := by
  induction rest with
  | nil => intro acc _ _; simp
  | cons p t ih =>
      intro acc hidx hnd
      obtain ⟨k, v⟩ := p
      have hdisj := (List.nodup_append.mp hnd).2.2
      have hkfresh : (acc.any (fun q => q.1 == k)) = false := by
        rw [← Bool.not_eq_true, List.any_eq_true]
        rintro ⟨q, hq, hqk⟩
        rw [beq_iff_eq] at hqk
        have hk1 : q.1 ∈ acc.map Prod.fst := List.mem_map.mpr ⟨q, hq, rfl⟩
        have hk2 : q.1 ∈ ((k, v) :: t).map Prod.fst := by
          rw [hqk]
          exact List.mem_cons_self _ _
        exact hdisj hk1 hk2
      have hkidx : isArrayIndexKey k = none :=
        hidx (k, v) (List.mem_cons_self _ _)
      rw [List.foldl_cons]
      have hstep : createDataProperty acc k v = acc ++ [(k, v)] := by
        simp [createDataProperty, hkfresh, hkidx]
      rw [hstep]
      have hnd2 : (((acc ++ [(k, v)]).map Prod.fst) ++ t.map Prod.fst).Nodup := by
        rw [List.map_append]
        rw [List.append_assoc]
        simpa using hnd
      have hr := ih (acc ++ [(k, v)])
        (fun q hq => hidx q (List.mem_cons_of_mem _ hq)) hnd2
      rw [hr, List.append_assoc, List.singleton_append]

theorem jsonParse_fixed {V : Type} (m : List (String × V))
    (hidx : ∀ p ∈ m, isArrayIndexKey p.1 = none)
    (hnd : (m.map Prod.fst).Nodup) : jsonParseFields m = m := by
  have hr := jsonParse_aux m [] hidx (by simpa using hnd)
  simpa [jsonParseFields] using hr

/-- C8 counterexample: `fromJSON` follows ECMAScript own-property order, not
textual key order — for the JSON text with members `"2": 20, "1": 10`,
`Object.values(JSON.parse(...))` is `[10, 20]` (array-index keys come first
in ascending numeric order), so the constructor does not receive the values
in the order the keys appeared in the text (`[20, 10]`). -/
theorem c8_counterexample :
    fromJSON id [("2", (20 : Int)), ("1", (10 : Int))] = [10, 20]
    ∧ fromJSON id [("2", (20 : Int)), ("1", (10 : Int))] ≠
        id (List.map Prod.snd [("2", (20 : Int)), ("1", (10 : Int))]) := by
  refine ⟨rfl, ?_⟩
  decide

/-- C8 amended: for a JSON object text whose keys are pairwise distinct and
none of which is an ECMAScript array index (for example, ordinary
identifier-like keys), `fromJSON` parses the text and passes the member
values positionally to the constructor in the order the keys appeared in the
text; with array-index keys the values arrive in own-property order (numeric
keys first, ascending) instead. -/
theorem c8_fromJSON_amended {V A : Type} (ctor : List V → A)
    (m : List (String × V))
    (hidx : ∀ p ∈ m, isArrayIndexKey p.1 = none)
    (hnd : (m.map Prod.fst).Nodup) :
    fromJSON ctor m = ctor (m.map Prod.snd) := by
  unfold fromJSON objectValues
  rw [jsonParse_fixed m hidx hnd]

theorem c8_witness :
    fromJSON id [("width", (10 : Int)), ("height", (20 : Int))] =
      id (List.map Prod.snd [("width", (10 : Int)), ("height", (20 : Int))]) :=
  c8_fromJSON_amended id [("width", 10), ("height", 20)] (by decide) (by decide)

/-- C9 counterexample: `getJSON` (that is, `JSON.stringify`) serialises
`\x7bwidth: 10, height: 20\x7d` with the keys in insertion order, producing
`'\x7b"width":10,"height":20\x7d'` — not the literal
`'\x7b"height":10,"width":20\x7d'` documented in the source comment and
repeated by the claim. -/
theorem c9_counterexample :
    getJSON [("width", 10), ("height", 20)] =
      "\x7b\"width\":10,\"height\":20\x7d"
    ∧ getJSON [("width", 10), ("height", 20)] ≠
        "\x7b\"height\":10,\"width\":20\x7d" := by
  refine ⟨rfl, ?_⟩
  decide

/-- C9 amended: `getJSON` returns standard JSON text with object keys in
own-property order (insertion order for non-numeric keys), and the member
list of that text parses back (`JSON.parse` modelled by `jsonParseFields`)
to a structure equal to the encoded object, for flat objects with pairwise
distinct non-array-index keys; the documented literal for the insertion
order `width: 10, height: 20` is `'\x7b"width":10,"height":20\x7d'`, not
the `'\x7b"height":10,"width":20\x7d'` stated in the claim. -/
theorem c9_getJSON_amended (m : List (String × Int))
    (hidx : ∀ p ∈ m, isArrayIndexKey p.1 = none)
    (hnd : (m.map Prod.fst).Nodup) :
    jsonParseFields m = m
    ∧ getJSON [("width", 10), ("height", 20)] =
        "\x7b\"width\":10,\"height\":20\x7d" :=
  ⟨jsonParse_fixed m hidx hnd, rfl⟩

theorem c9_witness :
    jsonParseFields [("width", (10 : Int)), ("height", (20 : Int))] =
      [("width", (10 : Int)), ("height", (20 : Int))]
    ∧ getJSON [("width", 10), ("height", 20)] =
        "\x7b\"width\":10,\"height\":20\x7d" :=
  c9_getJSON_amended [("width", 10), ("height", 20)] (by decide) (by decide)
